import Mathlib

/-!
Verification of the repository reconciliation engine of src/server.js.

The source is a small express server whose non-trivial core is the logic
driving a local working copy and a remote endpoint into a consistent
state.  We shallowly embed that core: strings are lists of characters,
filesystem and git state are explicit records, and each fallible external
command (checkout, commit, push, pull, clone, npm install, cleanup rm) is
given its outcome by an environment record, so theorems quantify over all
possible outcomes of the external world.  Handlers additionally emit an
event trace recording which operations they perform, in order.
-/

/-- Strings of the JavaScript source are modelled as lists of characters. -/
abbrev Str := List Char

/-! ## EndpointResolver: convertToSshUrl (src/server.js lines 39-46) -/

/-- The web-viewable URL prefix tested by startsWith in convertToSshUrl. -/
def webPre : Str := "https://github.com/".toList

/-- The canonical transport prefix substituted by convertToSshUrl. -/
def sshPre : Str := "git@github.com:".toList

/-- The trailing suffix handled by the second replace in convertToSshUrl. -/
def gitSuf : Str := ".git".toList

/-- JavaScript String.replace with a string pattern: replaces the first
occurrence of the pattern, or returns the string unchanged when the
pattern does not occur. -/
def replaceFirstSub (pat repl : Str) : Str → Str
  | [] => if pat.isPrefixOf ([] : Str) then repl ++ ([] : Str) else []
  | c :: cs =>
    if pat.isPrefixOf (c :: cs) then repl ++ (c :: cs).drop pat.length
    else c :: replaceFirstSub pat repl cs

/-- JavaScript String.replace with the anchored pattern matching a final
".git", replacing it by ".git" (the source performs this replacement
verbatim). -/
def replaceGitSuf (s : Str) : Str :=
  if gitSuf.isSuffixOf s then s.take (s.length - gitSuf.length) ++ gitSuf else s

/-- Embedding of convertToSshUrl: if the reference starts with the
web-viewable prefix, substitute the transport prefix and normalize the
trailing suffix; otherwise return the reference unchanged. -/
def convertToSshUrl (httpsUrl : Str) : Str :=
  if webPre.isPrefixOf httpsUrl then
    replaceGitSuf (replaceFirstSub webPre sshPre httpsUrl)
  else httpsUrl

lemma replaceGitSuf_id (s : Str) : replaceGitSuf s = s := by
  unfold replaceGitSuf
  split
  case isTrue h =>
    have hsuf : gitSuf <:+ s := by
      exact List.isSuffixOf_iff_suffix.mp h
    obtain ⟨t, rfl⟩ := hsuf
    have hlen : (t ++ gitSuf).length - gitSuf.length = t.length := by
      simp [List.length_append]
    rw [hlen]
    simp [List.take_left]
  case isFalse h => rfl

lemma replaceFirstSub_front (pat repl : Str) (s : Str)
    (h : pat.isPrefixOf s = true) :
    replaceFirstSub pat repl s = repl ++ s.drop pat.length := by
  cases s with
  | nil => simp [replaceFirstSub, h]
  | cons c cs => simp [replaceFirstSub, h]

lemma replaceFirstSub_web (rest : Str) :
    replaceFirstSub webPre sshPre (webPre ++ rest) = sshPre ++ rest := by
  have h : webPre.isPrefixOf (webPre ++ rest) = true := by
    exact List.isPrefixOf_iff_prefix.mpr ⟨rest, rfl⟩
  rw [replaceFirstSub_front _ _ _ h]
  simp [List.drop_left]

lemma webPre_not_prefixOf_ssh (rest : Str) :
    webPre.isPrefixOf (sshPre ++ rest) = false := by
  have hw : webPre = 'h' :: "ttps://github.com/".toList := by decide
  have hs : sshPre ++ rest = 'g' :: ("it@github.com:".toList ++ rest) := by
    simp [sshPre]
  rw [hw, hs]
  simp [List.isPrefixOf]

lemma convertToSshUrl_web (rest : Str) :
    convertToSshUrl (webPre ++ rest) = sshPre ++ rest := by
  unfold convertToSshUrl
  rw [if_pos (by exact List.isPrefixOf_iff_prefix.mpr ⟨rest, rfl⟩)]
  rw [replaceFirstSub_web, replaceGitSuf_id]

lemma convertToSshUrl_pass (u : Str) (h : webPre.isPrefixOf u = false) :
    convertToSshUrl u = u := by
  unfold convertToSshUrl
  simp [h]

/-- C8: EndpointResolver.resolve is idempotent: for every reference
string, resolve (resolve r) equals resolve r; in particular a reference
not starting with the web-viewable prefix is returned unchanged. -/
theorem convert_idempotent (r : Str) :
    convertToSshUrl (convertToSshUrl r) = convertToSshUrl r ∧
    (webPre.isPrefixOf r = false → convertToSshUrl r = r) := by
  constructor
  · by_cases h : webPre.isPrefixOf r = true
    · obtain ⟨rest, rfl⟩ := List.isPrefixOf_iff_prefix.mp h
      rw [convertToSshUrl_web]
      exact convertToSshUrl_pass _ (webPre_not_prefixOf_ssh rest)
    · have hf : webPre.isPrefixOf r = false := by
        cases hx : webPre.isPrefixOf r
        · rfl
        · exact absurd hx h
      rw [convertToSshUrl_pass r hf, convertToSshUrl_pass r hf]
  · exact fun h => convertToSshUrl_pass r h

/-- Witness for C8 at the concrete already-canonical transport reference. -/
theorem convert_idempotent_witness :
    convertToSshUrl ("git@github.com:acct/repo.git".toList) =
      "git@github.com:acct/repo.git".toList :=
  (convert_idempotent ("git@github.com:acct/repo.git".toList)).2 (by decide)

/-- C9: a reference matching the web-viewable prefix is rewritten to the
canonical transport form with the account-and-repo path preserved, and
every reference not matching the prefix passes through unchanged. -/
theorem convert_rewrite (rest : Str) :
    convertToSshUrl (webPre ++ rest) = sshPre ++ rest ∧
    (∀ u : Str, webPre.isPrefixOf u = false → convertToSshUrl u = u) := by
  exact ⟨convertToSshUrl_web rest, fun u h => convertToSshUrl_pass u h⟩

/-- Witness for C9: the web form of acct/repo.git maps to the transport
form of acct/repo.git, and the transport form resolves unchanged. -/
theorem convert_rewrite_witness :
    convertToSshUrl ("https://github.com/acct/repo.git".toList) =
      "git@github.com:acct/repo.git".toList ∧
    convertToSshUrl ("git@github.com:acct/repo.git".toList) =
      "git@github.com:acct/repo.git".toList := by
  constructor
  · have h := (convert_rewrite ("acct/repo.git".toList)).1
    have hw : webPre ++ "acct/repo.git".toList =
        "https://github.com/acct/repo.git".toList := by decide
    have hs : sshPre ++ "acct/repo.git".toList =
        "git@github.com:acct/repo.git".toList := by decide
    rw [hw, hs] at h
    exact h
  · exact (convert_rewrite ("acct/repo.git".toList)).2
      ("git@github.com:acct/repo.git".toList) (by decide)

/-! ## Git and filesystem state model -/

/-- One configured remote of a working copy: a name and a fetch URL
(simple-git getRemotes(true) reports both; the source only reads the
fetch URL). -/
structure RemoteEntry where
  name : Str
  url  : Str
deriving DecidableEq

/-- Version-control state of a local working copy. -/
structure GitState where
  isRepo   : Bool
  remotes  : List RemoteEntry
  current  : Str
  branches : List Str

/-- The remote name used throughout the source. -/
def originName : Str := "origin".toList

/-- Boolean test for an entry named origin (the comparison r.name ===
origin of the source). -/
def isOriginEntry (r : RemoteEntry) : Bool := r.name = originName

/-- Events recording, in order, the external operations a handler
performs: filesystem mutations, git commands and subprocess runs. -/
inductive Ev
  | copyScript | chmodScript
  | gitInit | addRemote (url : Str) | removeRemote
  | checkout (b : Str) | checkoutCreate (b : Str)
  | addAll | commitAttempt (msg : Str)
  | pushUpstream (b : Str) | pushPlain (b : Str)
  | mkdirParent | getRemotes | pullAttempt (b : Str) | rmTarget
  | cloneAttempt (b : Str) | npmInstall
  | copyTargetScript | chmodTargetScript | cleanupRm
deriving DecidableEq

/-! ## RemoteReconciler (src/server.js lines 214-236)

The upload route checks checkIsRepo; if the path is not a repository it
runs init and addRemote; otherwise, if no origin remote exists it adds
one; otherwise, if the origin fetch URL differs from the desired URL it
removes and re-adds the remote; otherwise it does nothing.  The returned
event list records exactly the mutations performed. -/

def reconcileRemote (g : GitState) (url : Str) : GitState × List Ev :=
  if g.isRepo = false then
    ({ g with isRepo := true, remotes := g.remotes ++ [⟨originName, url⟩] },
     [Ev.gitInit, Ev.addRemote url])
  else if (g.remotes.any isOriginEntry) = false then
    ({ g with remotes := g.remotes ++ [⟨originName, url⟩] }, [Ev.addRemote url])
  else
    match g.remotes.find? isOriginEntry with
    | some o =>
      if o.url = url then (g, [])
      else
        ({ g with remotes :=
              (g.remotes.filter fun r => !(isOriginEntry r)) ++ [⟨originName, url⟩] },
         [Ev.removeRemote, Ev.addRemote url])
    | none => (g, [])

lemma isOriginEntry_mk (url : Str) : isOriginEntry ⟨originName, url⟩ = true := by
  simp [isOriginEntry]

lemma filter_not_then_origin (l : List RemoteEntry) :
    (l.filter fun r => !(isOriginEntry r)).filter isOriginEntry = [] := by
  rw [List.filter_eq_nil_iff]
  intro a ha
  have h := List.mem_filter.mp ha
  simp at h
  simp [h.2]

lemma filter_eq_single_of_countP_le_one (l : List RemoteEntry) (a : RemoteEntry)
    (hc : l.countP isOriginEntry ≤ 1) (hm : a ∈ l) (hp : isOriginEntry a = true) :
    l.filter isOriginEntry = [a] := by
  induction l with
  | nil => cases hm
  | cons x xs ih =>
    rcases List.mem_cons.mp hm with rfl | hxs
    · rw [List.filter_cons_of_pos hp]
      have hc0 : xs.countP isOriginEntry = 0 := by
        rw [List.countP_cons_of_pos _ _ hp] at hc
        omega
      have : xs.filter isOriginEntry = [] := by
        rw [List.filter_eq_nil_iff]
        intro b hb
        have := List.countP_eq_zero.mp hc0
        simp [this b hb]
      rw [this]
    · by_cases hx : isOriginEntry x = true
      · exfalso
        rw [List.countP_cons_of_pos _ _ hx] at hc
        have hpos : 0 < xs.countP isOriginEntry := by
          rw [List.countP_pos_iff]
          exact ⟨a, hxs, hp⟩
        omega
      · have hxf : isOriginEntry x = false := by
          cases hxe : isOriginEntry x
          · rfl
          · exact absurd hxe hx
        rw [List.filter_cons_of_neg (by simp [hxf])]
        rw [List.countP_cons_of_neg _ _ (by simp [hxf])] at hc
        exact ih hc hxs

lemma find?_of_filter_single (l : List RemoteEntry) (a : RemoteEntry)
    (h : l.filter isOriginEntry = [a]) : l.find? isOriginEntry = some a := by
  induction l with
  | nil => simp at h
  | cons x xs ih =>
    by_cases hx : isOriginEntry x = true
    · rw [List.filter_cons_of_pos hx] at h
      have hxe : x = a := by
        have := List.cons.injEq x (xs.filter isOriginEntry) a [] ▸ h
        simp at this
        exact this.1
      rw [List.find?_cons_of_pos _ hx, hxe]
    · have hxf : isOriginEntry x = false := by
        cases hxe : isOriginEntry x
        · rfl
        · exact absurd hxe hx
      rw [List.filter_cons_of_neg (by simp [hxf])] at h
      rw [List.find?_cons_of_neg _ (by simp [hxf])]
      exact ih h

lemma reconcileRemote_init (g : GitState) (url : Str) (h : g.isRepo = false) :
    reconcileRemote g url =
      ({ g with isRepo := true, remotes := g.remotes ++ [⟨originName, url⟩] },
       [Ev.gitInit, Ev.addRemote url]) := by
  simp [reconcileRemote, h]

lemma reconcileRemote_addMissing (g : GitState) (url : Str) (h : g.isRepo = true)
    (hany : g.remotes.any isOriginEntry = false) :
    reconcileRemote g url =
      ({ g with remotes := g.remotes ++ [⟨originName, url⟩] }, [Ev.addRemote url]) := by
  simp [reconcileRemote, h, hany]

lemma reconcileRemote_same (g : GitState) (url : Str) (o : RemoteEntry)
    (h : g.isRepo = true) (hany : g.remotes.any isOriginEntry = true)
    (hfind : g.remotes.find? isOriginEntry = some o) (hurl : o.url = url) :
    reconcileRemote g url = (g, []) := by
  simp [reconcileRemote, h, hany, hfind, hurl]

lemma reconcileRemote_repoint (g : GitState) (url : Str) (o : RemoteEntry)
    (h : g.isRepo = true) (hany : g.remotes.any isOriginEntry = true)
    (hfind : g.remotes.find? isOriginEntry = some o) (hurl : o.url ≠ url) :
    reconcileRemote g url =
      ({ g with remotes :=
            (g.remotes.filter fun r => !(isOriginEntry r)) ++ [⟨originName, url⟩] },
       [Ev.removeRemote, Ev.addRemote url]) := by
  simp [reconcileRemote, h, hany, hfind, hurl]

/-- A state already reconciled (repository present, exactly one origin
entry with the desired URL) is a fixed point: reconcileRemote performs
no mutation at all on it. -/
lemma reconcileRemote_fixed (t : GitState) (url : Str)
    (hr : t.isRepo = true)
    (hf : t.remotes.filter isOriginEntry = [⟨originName, url⟩]) :
    reconcileRemote t url = (t, []) := by
  have hmem : (⟨originName, url⟩ : RemoteEntry) ∈ t.remotes := by
    have : (⟨originName, url⟩ : RemoteEntry) ∈ t.remotes.filter isOriginEntry := by
      rw [hf]; exact List.mem_singleton.mpr rfl
    exact (List.mem_filter.mp this).1
  have hany : t.remotes.any isOriginEntry = true := by
    rw [List.any_eq_true]
    exact ⟨⟨originName, url⟩, hmem, isOriginEntry_mk url⟩
  exact reconcileRemote_same t url _ hr hany (find?_of_filter_single _ _ hf) rfl

/-- C3: from any prior state of the working copy (no VCS metadata, VCS
metadata without an origin remote, or an origin remote with a different
URL), reconciling the remote yields a repository with exactly one remote
named origin whose URL is the desired one, and a repeated reconcile with
the same URL returns the same state and performs no mutation (empty
event list). -/
theorem remote_reconcile_exactly_one_origin_and_idempotent
    (g : GitState) (url : Str)
    (hinit : g.isRepo = false → g.remotes = [])
    (huniq : g.remotes.countP isOriginEntry ≤ 1) :
    (reconcileRemote g url).1.isRepo = true ∧
    (reconcileRemote g url).1.remotes.filter isOriginEntry = [⟨originName, url⟩] ∧
    reconcileRemote (reconcileRemote g url).1 url = ((reconcileRemote g url).1, []) := by
  have hpost : (reconcileRemote g url).1.isRepo = true ∧
      (reconcileRemote g url).1.remotes.filter isOriginEntry = [⟨originName, url⟩] := by
    cases hr : g.isRepo with
    | false =>
      rw [reconcileRemote_init g url hr]
      have hrem : g.remotes = [] := hinit hr
      simp [hrem, isOriginEntry_mk]
    | true =>
      cases hany : g.remotes.any isOriginEntry with
      | false =>
        rw [reconcileRemote_addMissing g url hr hany]
        refine ⟨hr, ?_⟩
        have hnil : g.remotes.filter isOriginEntry = [] := by
          rw [List.filter_eq_nil_iff]
          intro a ha
          cases hre : isOriginEntry a
          · simp
          · exact absurd (List.any_eq_true.mpr ⟨a, ha, hre⟩) (by simp [hany])
        simp [List.filter_append, hnil, isOriginEntry_mk]
      | true =>
        obtain ⟨o, hmem, ho⟩ := List.any_eq_true.mp hany
        have hfind : g.remotes.find? isOriginEntry = some o :=
          find?_of_filter_single _ _
            (filter_eq_single_of_countP_le_one _ _ huniq hmem ho)
        by_cases hurl : o.url = url
        · rw [reconcileRemote_same g url o hr hany hfind hurl]
          refine ⟨hr, ?_⟩
          have hname : o.name = originName := by
            have := ho
            simp [isOriginEntry] at this
            exact this
          have hoeq : o = ⟨originName, url⟩ := by
            cases o
            simp at hname hurl
            simp [hname, hurl]
          rw [← hoeq]
          exact filter_eq_single_of_countP_le_one _ _ huniq hmem ho
        · rw [reconcileRemote_repoint g url o hr hany hfind hurl]
          refine ⟨hr, ?_⟩
          rw [List.filter_append, filter_not_then_origin]
          simp [isOriginEntry_mk]
  exact ⟨hpost.1, hpost.2, reconcileRemote_fixed _ _ hpost.1 hpost.2⟩

/-- Witness for C3 at a concrete uninitialized working copy. -/
theorem remote_reconcile_witness :
    ((⟨false, [], [], []⟩ : GitState).isRepo = false → (⟨false, [], [], []⟩ : GitState).remotes = []) ∧
    (⟨false, [], [], []⟩ : GitState).remotes.countP isOriginEntry ≤ 1 ∧
    (reconcileRemote ⟨false, [], [], []⟩ "u".toList).1.remotes.filter isOriginEntry =
      [⟨originName, "u".toList⟩] :=
  ⟨fun _ => rfl, by decide,
   (remote_reconcile_exactly_one_origin_and_idempotent
      ⟨false, [], [], []⟩ "u".toList (fun _ => rfl) (by decide)).2.1⟩

/-! ## BranchReconciler (src/server.js lines 239-250)

The upload route tries git.checkout(branch); on failure it inspects the
error message: if it contains pathspec or not found it runs
git.checkout -b branch (create from the current position and switch in
one step), otherwise the checkout error is re-thrown unchanged.  The
outcome of the external checkout command is supplied as a parameter. -/

/-- JavaScript String.includes: does the pattern occur contiguously in
the string. -/
def containsSub (pat : Str) : Str → Bool
  | [] => pat.isPrefixOf ([] : Str)
  | c :: cs => pat.isPrefixOf (c :: cs) || containsSub pat cs

/-- Error classification of the source: the catch handler tests whether
the checkout error message includes pathspec or includes not found. -/
def isNotFoundMsg (m : Str) : Bool :=
  containsSub "pathspec".toList m || containsSub "not found".toList m

/-- git checkout -b: create the branch from the current position and
switch to it, leaving every other component of the state unchanged. -/
def checkoutCreateB (g : GitState) (b : Str) : GitState :=
  { g with branches := g.branches ++ [b], current := b }

/-- Embedding of the checkout-or-create block: outcome is the result of
the external git.checkout call. -/
def branchReconcile (g : GitState) (b : Str) (outcome : Except Str Unit) :
    Except Str GitState × List Ev :=
  match outcome with
  | .ok _ => (.ok { g with current := b }, [Ev.checkout b])
  | .error m =>
    if isNotFoundMsg m then
      (.ok (checkoutCreateB g b), [Ev.checkout b, Ev.checkoutCreate b])
    else (.error m, [Ev.checkout b])

/-- C4: branch reconciliation first attempts a switch; exactly when the
switch failure is classified as branch-not-found it creates the branch
from the current position and switches to it in one step (the branch is
appended to the local branches, becomes current, and nothing else
changes); every other switch failure is propagated unchanged. -/
theorem branch_reconcile_cases (g : GitState) (b : Str) (outcome : Except Str Unit) :
    (∀ u : Unit, outcome = .ok u →
       branchReconcile g b outcome = (.ok { g with current := b }, [Ev.checkout b])) ∧
    (∀ m : Str, outcome = .error m → isNotFoundMsg m = true →
       branchReconcile g b outcome =
         (.ok (checkoutCreateB g b), [Ev.checkout b, Ev.checkoutCreate b]) ∧
       (checkoutCreateB g b).current = b ∧
       (checkoutCreateB g b).branches = g.branches ++ [b] ∧
       (checkoutCreateB g b).isRepo = g.isRepo ∧
       (checkoutCreateB g b).remotes = g.remotes) ∧
    (∀ m : Str, outcome = .error m → isNotFoundMsg m = false →
       branchReconcile g b outcome = (.error m, [Ev.checkout b])) := by
  refine ⟨?_, ?_, ?_⟩
  · intro u h
    subst h
    rfl
  · intro m h hn
    subst h
    exact ⟨by simp [branchReconcile, hn], rfl, rfl, rfl, rfl⟩
  · intro m h hn
    subst h
    simp [branchReconcile, hn]

/-- Witness for C4 at a concrete not-found checkout failure. -/
theorem branch_reconcile_witness :
    isNotFoundMsg ("error: pathspec main did not match".toList) = true ∧
    branchReconcile ⟨true, [], "x".toList, ["x".toList]⟩ "main".toList
        (.error ("error: pathspec main did not match".toList)) =
      (.ok (checkoutCreateB ⟨true, [], "x".toList, ["x".toList]⟩ "main".toList),
       [Ev.checkout "main".toList, Ev.checkoutCreate "main".toList]) :=
  ⟨by decide,
   ((branch_reconcile_cases ⟨true, [], "x".toList, ["x".toList]⟩ "main".toList
      (.error ("error: pathspec main did not match".toList))).2.1
      ("error: pathspec main did not match".toList) rfl (by decide)).1⟩

/-! ## SyncExecutor: the upload route (src/server.js lines 173-284)

State of the source directory: whether it is a directory, its files, the
files carrying the executable bit, the pending (unstaged) changes and
the staged set.  The environment supplies the outcomes of the external
checkout, commit and push commands. -/

structure SrcFs where
  isDirectory : Bool
  files    : List Str
  execBits : List Str
  changes  : List Str
  staged   : List Str

structure UploadSt where
  fs  : SrcFs
  git : GitState

structure UploadEnv where
  checkoutOutcome : Except Str Unit
  commitOutcome   : Except Str Str
  pushUpstreamOutcome : Except Str Unit
  pushPlainOutcome    : Except Str Unit

/-- The manifest marker checked by the validation step. -/
def pkgJson : Str := "package.json".toList

/-- The helper script ensured by the upload and download routes. -/
def runScript : Str := "run-vite-project.sh".toList

def errNotDir : Str := "Source local path not found or is not a directory".toList
def errNoPkg : Str := "package.json not found".toList
def errNothingToCommit : Str := "nothing to commit".toList

/-- Validation result carrying the commit identifier on success. -/
structure SyncOk where
  commitId : Str

/-- Lines 199-205: if the helper script is missing from the source path,
copy it from the template and set it executable; the new file is a
pending change the later staging picks up. -/
def ensureScript (s : UploadSt) : UploadSt × List Ev :=
  if runScript ∈ s.fs.files then (s, [])
  else
    ({ s with fs := { s.fs with
        files := s.fs.files ++ [runScript],
        execBits := s.fs.execBits ++ [runScript],
        changes := s.fs.changes ++ [runScript] } },
     [Ev.copyScript, Ev.chmodScript])

/-- Lines 253-257: stage everything, then attempt the commit
unconditionally; a commit with an empty staged set fails (nothing to
commit), a commit with a non-empty staged set has the outcome the
environment assigns to the external command. -/
def stageCommit (env : UploadEnv) (commitMessage : Str) (s : UploadSt) :
    UploadSt × List Ev × Except Str Str :=
  let s4 : UploadSt := { s with fs := { s.fs with staged := s.fs.changes } }
  if s4.fs.staged.isEmpty then
    (s4, [Ev.addAll, Ev.commitAttempt commitMessage], .error errNothingToCommit)
  else
    match env.commitOutcome with
    | .ok cid =>
      ({ s4 with fs := { s4.fs with staged := [], changes := [] } },
       [Ev.addAll, Ev.commitAttempt commitMessage], .ok cid)
    | .error m => (s4, [Ev.addAll, Ev.commitAttempt commitMessage], .error m)

/-- Lines 259-273: if the current branch equals the target branch, push
with the set-upstream form first and fall back to one plain push on its
failure; otherwise push plainly.  Any failure of the final push is the
result of the phase. -/
def pushPhase (env : UploadEnv) (branchName current : Str) :
    List Ev × Except Str Unit :=
  if current = branchName then
    match env.pushUpstreamOutcome with
    | .ok _ => ([Ev.pushUpstream branchName], .ok ())
    | .error _ =>
      match env.pushPlainOutcome with
      | .ok _ => ([Ev.pushUpstream branchName, Ev.pushPlain branchName], .ok ())
      | .error m2 =>
        ([Ev.pushUpstream branchName, Ev.pushPlain branchName], .error m2)
  else
    match env.pushPlainOutcome with
    | .ok _ => ([Ev.pushPlain branchName], .ok ())
    | .error m2 => ([Ev.pushPlain branchName], .error m2)

/-- Lines 208-273: the version-control phase of the upload route: remote
reconciliation, branch reconciliation, staging, commit, push. -/
def gitPhase (env : UploadEnv) (repoUrl branchName commitMessage : Str)
    (s : UploadSt) : UploadSt × List Ev × Except Str SyncOk :=
  let rr := reconcileRemote s.git repoUrl
  let s2 : UploadSt := { s with git := rr.1 }
  match branchReconcile s2.git branchName env.checkoutOutcome with
  | (.error m, evs3) => (s2, rr.2 ++ evs3, .error m)
  | (.ok g3, evs3) =>
    let s3 : UploadSt := { s2 with git := g3 }
    match stageCommit env commitMessage s3 with
    | (s4, evs4, .error m) => (s4, rr.2 ++ evs3 ++ evs4, .error m)
    | (s4, evs4, .ok cid) =>
      match pushPhase env branchName s4.git.current with
      | (evs5, .ok _) => (s4, rr.2 ++ evs3 ++ evs4 ++ evs5, .ok ⟨cid⟩)
      | (evs5, .error m) => (s4, rr.2 ++ evs3 ++ evs4 ++ evs5, .error m)

/-- The upload route: validate the source path, ensure the helper
script, then run the version-control phase. -/
def uploadHandler (env : UploadEnv) (repoUrl branchName commitMessage : Str)
    (s : UploadSt) : UploadSt × List Ev × Except Str SyncOk :=
  if s.fs.isDirectory = false then (s, [], .error errNotDir)
  else if pkgJson ∈ s.fs.files then
    let e1 := ensureScript s
    let gp := gitPhase env repoUrl branchName commitMessage e1.1
    (gp.1, e1.2 ++ gp.2.1, gp.2.2)
  else (s, [], .error errNoPkg)

/-- The push commands among the events. -/
def isPushEv : Ev → Bool
  | Ev.pushUpstream _ => true
  | Ev.pushPlain _ => true
  | _ => false

lemma reconcile_evs_pushFree (g : GitState) (url : Str) :
    (reconcileRemote g url).2.filter isPushEv = [] := by
  unfold reconcileRemote
  repeat' split
  all_goals rfl

lemma branchReconcile_ok_cases (g : GitState) (b : Str) (out : Except Str Unit)
    (h : out = .ok () ∨ ∃ m, out = .error m ∧ isNotFoundMsg m = true) :
    ∃ g3 evs3, branchReconcile g b out = (.ok g3, evs3) ∧ g3.current = b ∧
      evs3.filter isPushEv = [] := by
  rcases h with h | ⟨m, hm, hn⟩
  · subst h
    exact ⟨{ g with current := b }, [Ev.checkout b], rfl, rfl, rfl⟩
  · subst hm
    refine ⟨checkoutCreateB g b, [Ev.checkout b, Ev.checkoutCreate b], ?_, rfl, rfl⟩
    simp [branchReconcile, hn]

lemma stageCommit_ok (env : UploadEnv) (msg : Str) (s : UploadSt) (cid : Str)
    (hch : s.fs.changes ≠ []) (hc : env.commitOutcome = .ok cid) :
    stageCommit env msg s =
      ({ s with fs := { s.fs with staged := [], changes := [] } },
       [Ev.addAll, Ev.commitAttempt msg], .ok cid) := by
  have hne : s.fs.changes.isEmpty = false := by
    cases hx : s.fs.changes
    · exact absurd hx hch
    · rfl
  simp [stageCommit, hne, hc]

lemma stageCommit_empty (env : UploadEnv) (msg : Str) (s : UploadSt)
    (hch : s.fs.changes = []) :
    stageCommit env msg s =
      ({ s with fs := { s.fs with staged := s.fs.changes } },
       [Ev.addAll, Ev.commitAttempt msg], .error errNothingToCommit) := by
  simp [stageCommit, hch]

lemma stageCommit_preserves (env : UploadEnv) (msg : Str) (s : UploadSt) :
    (stageCommit env msg s).1.fs.files = s.fs.files ∧
    (stageCommit env msg s).1.fs.execBits = s.fs.execBits := by
  simp only [stageCommit]
  split
  · exact ⟨rfl, rfl⟩
  · split
    · exact ⟨rfl, rfl⟩
    · exact ⟨rfl, rfl⟩

lemma gitPhase_preserves (env : UploadEnv) (url b msg : Str) (s : UploadSt) :
    (gitPhase env url b msg s).1.fs.files = s.fs.files ∧
    (gitPhase env url b msg s).1.fs.execBits = s.fs.execBits := by
  simp only [gitPhase]
  split
  · exact ⟨rfl, rfl⟩
  · rename_i g3 evs3 heq
    split
    · rename_i s4 evs4 m heq2
      have h := stageCommit_preserves env msg ⟨s.fs, g3⟩
      rw [heq2] at h
      exact h
    · rename_i s4 evs4 cid heq2
      have h := stageCommit_preserves env msg ⟨s.fs, g3⟩
      rw [heq2] at h
      split
      · exact h
      · exact h

lemma uploadHandler_valid (env : UploadEnv) (url b msg : Str) (s : UploadSt)
    (hdir : s.fs.isDirectory = true) (hpkg : pkgJson ∈ s.fs.files) :
    uploadHandler env url b msg s =
      ((gitPhase env url b msg (ensureScript s).1).1,
       (ensureScript s).2 ++ (gitPhase env url b msg (ensureScript s).1).2.1,
       (gitPhase env url b msg (ensureScript s).1).2.2) := by
  simp [uploadHandler, hdir, hpkg]

lemma ensureScript_changes_ne (s : UploadSt) (h : s.fs.changes ≠ []) :
    (ensureScript s).1.fs.changes ≠ [] := by
  unfold ensureScript
  split
  · exact h
  · simp

lemma ensureScript_evs_pushFree (s : UploadSt) :
    (ensureScript s).2.filter isPushEv = [] := by
  unfold ensureScript
  split
  · rfl
  · rfl

lemma gitPhase_push_form (env : UploadEnv) (url b msg : Str) (s : UploadSt) (cid : Str)
    (hch : s.fs.changes ≠ [])
    (hbr : env.checkoutOutcome = .ok () ∨
      ∃ m, env.checkoutOutcome = .error m ∧ isNotFoundMsg m = true)
    (hc : env.commitOutcome = .ok cid) :
    ∃ pre : List Ev, pre.filter isPushEv = [] ∧
      (gitPhase env url b msg s).2.1 = pre ++ (pushPhase env b b).1 ∧
      (gitPhase env url b msg s).2.2 =
        (match (pushPhase env b b).2 with
         | .ok _ => Except.ok (⟨cid⟩ : SyncOk)
         | .error m => Except.error m) := by
  obtain ⟨g3, evs3, hbre, hcur, hevs3⟩ :=
    branchReconcile_ok_cases (reconcileRemote s.git url).1 b env.checkoutOutcome hbr
  have hsc := stageCommit_ok env msg ⟨s.fs, g3⟩ cid hch hc
  refine ⟨(reconcileRemote s.git url).2 ++ evs3 ++ [Ev.addAll, Ev.commitAttempt msg],
    ?_, ?_, ?_⟩
  · simp [List.filter_append, reconcile_evs_pushFree, hevs3, isPushEv]
  · rcases hpp : pushPhase env b b with ⟨evs5, r5⟩
    simp only [gitPhase, hbre, hsc, hcur, hpp]
    cases r5
    · simp
    · simp
  · rcases hpp : pushPhase env b b with ⟨evs5, r5⟩
    simp only [gitPhase, hbre, hsc, hcur, hpp]
    cases r5
    · simp
    · simp

/-- C1: for every upload request that reaches the push stage (validation
passed, checkout succeeded or was recovered by branch creation, commit
succeeded), the first push attempt uses the upstream-establishing form;
if that variant fails exactly one plain-push retry is made; a failure of
the plain-push retry is the result surfaced to the caller, and a
successful push surfaces the commit identifier of the commit step. -/
theorem upload_push_upstream_first_then_single_plain_retry
    (env : UploadEnv) (url b msg : Str) (s : UploadSt) (cid : Str)
    (hdir : s.fs.isDirectory = true)
    (hpkg : pkgJson ∈ s.fs.files)
    (hch : s.fs.changes ≠ [])
    (hbr : env.checkoutOutcome = .ok () ∨
      ∃ m, env.checkoutOutcome = .error m ∧ isNotFoundMsg m = true)
    (hc : env.commitOutcome = .ok cid) :
    ((uploadHandler env url b msg s).2.1.filter isPushEv).head? =
      some (Ev.pushUpstream b) ∧
    (env.pushUpstreamOutcome = .ok () →
      (uploadHandler env url b msg s).2.1.filter isPushEv = [Ev.pushUpstream b] ∧
      (uploadHandler env url b msg s).2.2 = .ok ⟨cid⟩) ∧
    (∀ me, env.pushUpstreamOutcome = .error me →
      (uploadHandler env url b msg s).2.1.filter isPushEv =
        [Ev.pushUpstream b, Ev.pushPlain b] ∧
      (env.pushPlainOutcome = .ok () →
        (uploadHandler env url b msg s).2.2 = .ok ⟨cid⟩) ∧
      (∀ m2, env.pushPlainOutcome = .error m2 →
        (uploadHandler env url b msg s).2.2 = .error m2)) := by
  rw [uploadHandler_valid env url b msg s hdir hpkg]
  obtain ⟨pre, hpre, hevs, hres⟩ :=
    gitPhase_push_form env url b msg (ensureScript s).1 cid
      (ensureScript_changes_ne s hch) hbr hc
  dsimp only
  rw [hevs, hres]
  cases hup : env.pushUpstreamOutcome with
  | ok u =>
    cases u
    have hpp : pushPhase env b b = ([Ev.pushUpstream b], .ok ()) := by
      simp [pushPhase, hup]
    rw [hpp]
    refine ⟨?_, ?_, ?_⟩
    · simp [List.filter_append, ensureScript_evs_pushFree, hpre, isPushEv]
    · intro _
      constructor
      · simp [List.filter_append, ensureScript_evs_pushFree, hpre, isPushEv]
      · rfl
    · intro me hme
      exact Except.noConfusion hme
  | error me =>
    cases hpl : env.pushPlainOutcome with
    | ok u =>
      cases u
      have hpp : pushPhase env b b =
          ([Ev.pushUpstream b, Ev.pushPlain b], .ok ()) := by
        simp [pushPhase, hup, hpl]
      rw [hpp]
      refine ⟨?_, ?_, ?_⟩
      · simp [List.filter_append, ensureScript_evs_pushFree, hpre, isPushEv]
      · intro hok
        exact Except.noConfusion hok
      · intro me2 _
        refine ⟨?_, ?_, ?_⟩
        · simp [List.filter_append, ensureScript_evs_pushFree, hpre, isPushEv]
        · intro _
          rfl
        · intro m2 hm2
          exact Except.noConfusion hm2
    | error m2 =>
      have hpp : pushPhase env b b =
          ([Ev.pushUpstream b, Ev.pushPlain b], .error m2) := by
        simp [pushPhase, hup, hpl]
      rw [hpp]
      refine ⟨?_, ?_, ?_⟩
      · simp [List.filter_append, ensureScript_evs_pushFree, hpre, isPushEv]
      · intro hok
        exact Except.noConfusion hok
      · intro me2 _
        refine ⟨?_, ?_, ?_⟩
        · simp [List.filter_append, ensureScript_evs_pushFree, hpre, isPushEv]
        · intro hok
          exact Except.noConfusion hok
        · intro m3 hm3
          injection hm3 with h
          subst h
          rfl

/-- A concrete ready-to-push upload state used by witnesses. -/
def stPush : UploadSt :=
  ⟨⟨true, [pkgJson, runScript], [runScript], ["a".toList], []⟩,
   ⟨true, [], "main".toList, ["main".toList]⟩⟩

/-- A concrete environment where the set-upstream push is rejected and
the plain push succeeds. -/
def envPush : UploadEnv :=
  ⟨.ok (), .ok "c1".toList, .error "rejected".toList, .ok ()⟩

/-- Witness for C1: with the upstream push rejected, exactly the
upstream attempt followed by one plain push happens, and the result
carries the commit identifier of the commit step. -/
theorem upload_push_witness :
    (uploadHandler envPush "u".toList "main".toList "fix bug".toList stPush).2.1.filter
        isPushEv = [Ev.pushUpstream "main".toList, Ev.pushPlain "main".toList] ∧
    (uploadHandler envPush "u".toList "main".toList "fix bug".toList stPush).2.2 =
      .ok ⟨"c1".toList⟩ := by
  have h := upload_push_upstream_first_then_single_plain_retry envPush
    "u".toList "main".toList "fix bug".toList stPush "c1".toList
    (by decide) (by decide) (by decide) (Or.inl rfl) rfl
  have h2 := h.2.2 "rejected".toList rfl
  exact ⟨h2.1, h2.2.1 rfl⟩

/-- C6: an upload request on a working copy with no pending changes
(empty staged set after stage-all) still emits the commit attempt and
surfaces the commit failure instead of silently succeeding. -/
theorem upload_empty_stage_commit_attempted
    (env : UploadEnv) (url b msg : Str) (s : UploadSt)
    (hdir : s.fs.isDirectory = true) (hpkg : pkgJson ∈ s.fs.files)
    (hscript : runScript ∈ s.fs.files)
    (hch : s.fs.changes = [])
    (hbr : env.checkoutOutcome = .ok () ∨
      ∃ m, env.checkoutOutcome = .error m ∧ isNotFoundMsg m = true) :
    Ev.commitAttempt msg ∈ (uploadHandler env url b msg s).2.1 ∧
    (uploadHandler env url b msg s).2.2 = .error errNothingToCommit := by
  rw [uploadHandler_valid env url b msg s hdir hpkg]
  have hes : ensureScript s = (s, []) := by simp [ensureScript, hscript]
  rw [hes]
  dsimp only
  obtain ⟨g3, evs3, hbre, hcur, _⟩ :=
    branchReconcile_ok_cases (reconcileRemote s.git url).1 b env.checkoutOutcome hbr
  have hsc := stageCommit_empty env msg ⟨s.fs, g3⟩ hch
  refine ⟨?_, ?_⟩
  · simp only [gitPhase, hbre, hsc]
    simp
  · simp only [gitPhase, hbre, hsc]

/-- A concrete upload state whose working copy has no pending changes. -/
def stEmptyCh : UploadSt :=
  ⟨⟨true, [pkgJson, runScript], [runScript], [], []⟩,
   ⟨true, [], "main".toList, ["main".toList]⟩⟩

/-- A concrete environment where every external command succeeds. -/
def envOkAll : UploadEnv := ⟨.ok (), .ok "c".toList, .ok (), .ok ()⟩

/-- Witness for C6 at a concrete change-free state. -/
theorem upload_empty_stage_witness :
    (uploadHandler envOkAll "u".toList "main".toList "fix".toList stEmptyCh).2.2 =
      .error errNothingToCommit :=
  (upload_empty_stage_commit_attempted envOkAll "u".toList "main".toList
    "fix".toList stEmptyCh (by decide) (by decide) (by decide) rfl (Or.inl rfl)).2

lemma ensureScript_missing_evs (s : UploadSt) (h : runScript ∉ s.fs.files) :
    (ensureScript s).2 = [Ev.copyScript, Ev.chmodScript] := by
  simp [ensureScript, h]

lemma ensureScript_missing_files (s : UploadSt) (h : runScript ∉ s.fs.files) :
    (ensureScript s).1.fs.files = s.fs.files ++ [runScript] := by
  simp [ensureScript, h]

lemma ensureScript_missing_exec (s : UploadSt) (h : runScript ∉ s.fs.files) :
    (ensureScript s).1.fs.execBits = s.fs.execBits ++ [runScript] := by
  simp [ensureScript, h]

/-- C10: an upload request whose source passes validation but lacks the
helper script mutates the source directory first: the copy and chmod of
the helper script are the first two events, before any version-control
event, and the script is present and executable in the final state for
every outcome of the later version-control phase (in particular when
the upload fails). -/
theorem upload_copies_helper_script_before_vcs
    (env : UploadEnv) (url b msg : Str) (s : UploadSt)
    (hdir : s.fs.isDirectory = true) (hpkg : pkgJson ∈ s.fs.files)
    (hscript : runScript ∉ s.fs.files) :
    (∃ rest, (uploadHandler env url b msg s).2.1 =
       Ev.copyScript :: Ev.chmodScript :: rest) ∧
    runScript ∈ (uploadHandler env url b msg s).1.fs.files ∧
    runScript ∈ (uploadHandler env url b msg s).1.fs.execBits := by
  rw [uploadHandler_valid env url b msg s hdir hpkg]
  dsimp only
  refine ⟨?_, ?_, ?_⟩
  · rw [ensureScript_missing_evs s hscript]
    exact ⟨_, rfl⟩
  · rw [(gitPhase_preserves env url b msg ((ensureScript s).1)).1,
      ensureScript_missing_files s hscript]
    simp
  · rw [(gitPhase_preserves env url b msg ((ensureScript s).1)).2,
      ensureScript_missing_exec s hscript]
    simp

/-- A concrete upload state valid for upload but missing the helper
script. -/
def stNoScript : UploadSt := ⟨⟨true, [pkgJson], [], [], []⟩, ⟨false, [], [], []⟩⟩

/-- Witness for C10 at a concrete script-less source directory. -/
theorem upload_script_witness :
    runScript ∈ (uploadHandler envOkAll "u".toList "main".toList "fix".toList
      stNoScript).1.fs.files ∧
    runScript ∈ (uploadHandler envOkAll "u".toList "main".toList "fix".toList
      stNoScript).1.fs.execBits := by
  have h := upload_copies_helper_script_before_vcs envOkAll "u".toList
    "main".toList "fix".toList stNoScript (by decide) (by decide) (by decide)
  exact ⟨h.2.1, h.2.2⟩

/-! ## AcquisitionPipeline: the download route (src/server.js lines 288-375)

The target path is either absent or a directory with contents: possibly
a repository configuration (none when the directory is not a working
copy, in which case getRemotes throws), files, and executable bits.  The
environment supplies the outcomes of the external pull, clone, npm
install and cleanup rm commands, and the content a successful clone
materializes. -/

structure RepoCfg where
  remotes : List RemoteEntry

structure DirContent where
  repo : Option RepoCfg
  files : List Str
  execBits : List Str

structure DlState where
  parentExists : Bool
  target : Option DirContent

structure DlEnv where
  pullOutcome : Except Str Unit
  cloneOutcome : Except Str Unit
  cloneContent : DirContent
  npmOutcome : Except Str Unit
  rmCleanupOk : Bool

/-- Lines 314-321: before pulling, the route reads the remotes, finds
the origin entry, and only when one exists with a fetch URL different
from the canonical one removes and re-adds it.  A missing origin, or an
uninitialized directory, is left untouched by this step. -/
def fixRemoteForPull (cfg : RepoCfg) (url : Str) : RepoCfg × List Ev :=
  match cfg.remotes.find? isOriginEntry with
  | some o =>
    if o.url = url then (cfg, [])
    else
      (⟨(cfg.remotes.filter fun r => !(isOriginEntry r)) ++ [⟨originName, url⟩]⟩,
       [Ev.removeRemote, Ev.addRemote url])
  | none => (cfg, [])

/-- Lines 310-329: when the target exists, attempt the remote fix and
the pull; any failure in that block (getRemotes throwing on a
non-repository, or the pull failing) is caught, the directory is
removed, and control falls through to cloning. -/
def pullPhase (env : DlEnv) (url b : Str) (s : DlState) : DlState × List Ev :=
  match s.target with
  | none => (s, [])
  | some d =>
    match d.repo with
    | none => ({ s with target := none }, [Ev.getRemotes, Ev.rmTarget])
    | some cfg =>
      let fx := fixRemoteForPull cfg url
      match env.pullOutcome with
      | .ok _ =>
        ({ s with target := some { d with repo := some fx.1 } },
         Ev.getRemotes :: fx.2 ++ [Ev.pullAttempt b])
      | .error _ =>
        ({ s with target := none },
         Ev.getRemotes :: fx.2 ++ [Ev.pullAttempt b, Ev.rmTarget])

def addIfMissing (x : Str) (l : List Str) : List Str :=
  if x ∈ l then l else l ++ [x]

/-- Lines 346-354: ensure the helper script exists in the downloaded
project (copying it from the template when missing) and mark it
executable. -/
def ensureTargetScript (c : DirContent) : DirContent × List Ev :=
  if runScript ∈ c.files then
    ({ c with execBits := addIfMissing runScript c.execBits }, [Ev.chmodTargetScript])
  else
    ({ c with files := c.files ++ [runScript],
              execBits := addIfMissing runScript c.execBits },
     [Ev.copyTargetScript, Ev.chmodTargetScript])

def errNoTargetDir : Str := "ENOENT".toList

/-- Lines 362-374: the catch block of the route: if the target path
still exists its removal is attempted (a removal failure is only
logged), and the response carries the original error either way. -/
def dlCatch (env : DlEnv) (m : Str) (s : DlState) (evs : List Ev) :
    DlState × List Ev × Except Str Unit :=
  match s.target with
  | some _ =>
    if env.rmCleanupOk then
      ({ s with target := none }, evs ++ [Ev.cleanupRm], .error m)
    else (s, evs ++ [Ev.cleanupRm], .error m)
  | none => (s, evs, .error m)

/-- Lines 339-360: npm install followed by the helper-script fixup; a
failing npm install is terminal and goes through the catch block. -/
def afterClone (env : DlEnv) (s : DlState) (evs : List Ev) :
    DlState × List Ev × Except Str Unit :=
  match env.npmOutcome with
  | .error m => dlCatch env m s (evs ++ [Ev.npmInstall])
  | .ok _ =>
    match s.target with
    | none => dlCatch env errNoTargetDir s (evs ++ [Ev.npmInstall])
    | some c =>
      let ec := ensureTargetScript c
      ({ s with target := some ec.1 }, evs ++ [Ev.npmInstall] ++ ec.2, .ok ())

/-- The download route: ensure the parent directory, resolve the
canonical URL, update-or-remove an existing target, clone when the
target is absent or was removed, then install and fix up. -/
def dlHandler (env : DlEnv) (urlRaw b : Str) (s : DlState) :
    DlState × List Ev × Except Str Unit :=
  let s0 : DlState := { s with parentExists := true }
  let sshUrl := convertToSshUrl urlRaw
  let te0 := s.target.isSome
  let pp := pullPhase env sshUrl b s0
  let evs1 := Ev.mkdirParent :: pp.2
  if (!te0 || (te0 && !(pp.1.target.isSome))) = true then
    match env.cloneOutcome with
    | .error m => dlCatch env m pp.1 (evs1 ++ [Ev.cloneAttempt b])
    | .ok _ =>
      afterClone env { pp.1 with target := some env.cloneContent }
        (evs1 ++ [Ev.cloneAttempt b])
  else
    afterClone env pp.1 evs1

/-- C5 counterexample: a target directory that is a working copy with
no origin remote.  The pre-update remote step of the download route
leaves the configuration unchanged and performs no operation, so no
origin remote with the canonical URL exists when the update is
attempted — refuting the claim that the full reconciliation policy
(initialize if uninitialized, add origin if absent, repoint if the URL
differs) is applied before the update. -/
theorem acquisition_remote_fix_no_origin_added :
    (fixRemoteForPull ⟨[]⟩ ("git@github.com:acct/repo.git".toList)).1.remotes = [] ∧
    (fixRemoteForPull ⟨[]⟩ ("git@github.com:acct/repo.git".toList)).2 = [] :=
  ⟨rfl, rfl⟩

/-- C5 as amended: before attempting the update, the download route
adjusts the existing directory's remote only by repointing: when an
origin remote exists with a URL different from the canonical one it is
removed and re-added (leaving exactly one origin entry with the
canonical URL); when the origin URL already matches, or when no origin
remote exists at all, the configuration is left unchanged and no remote
is added or initialized. -/
theorem acquisition_remote_repoint_only (cfg : RepoCfg) (url : Str)
    (huniq : cfg.remotes.countP isOriginEntry ≤ 1) :
    ((∀ r ∈ cfg.remotes, isOriginEntry r = false) →
       fixRemoteForPull cfg url = (cfg, [])) ∧
    (∀ o ∈ cfg.remotes, isOriginEntry o = true → o.url = url →
       fixRemoteForPull cfg url = (cfg, [])) ∧
    (∀ o ∈ cfg.remotes, isOriginEntry o = true → o.url ≠ url →
       (fixRemoteForPull cfg url).1.remotes.filter isOriginEntry =
         [⟨originName, url⟩] ∧
       (fixRemoteForPull cfg url).2 = [Ev.removeRemote, Ev.addRemote url]) := by
  refine ⟨?_, ?_, ?_⟩
  · intro h
    have hfind : cfg.remotes.find? isOriginEntry = none := by
      rw [List.find?_eq_none]
      intro x hx
      simp [h x hx]
    simp [fixRemoteForPull, hfind]
  · intro o hmem ho hurl
    have hfind : cfg.remotes.find? isOriginEntry = some o :=
      find?_of_filter_single _ _
        (filter_eq_single_of_countP_le_one _ _ huniq hmem ho)
    simp [fixRemoteForPull, hfind, hurl]
  · intro o hmem ho hurl
    have hfind : cfg.remotes.find? isOriginEntry = some o :=
      find?_of_filter_single _ _
        (filter_eq_single_of_countP_le_one _ _ huniq hmem ho)
    constructor
    · simp only [fixRemoteForPull, hfind, if_neg hurl]
      rw [List.filter_append, filter_not_then_origin]
      simp [isOriginEntry_mk]
    · simp [fixRemoteForPull, hfind, hurl]

/-- Witness for the amended C5 at a concrete configuration whose origin
remote points at a different URL. -/
theorem acquisition_remote_repoint_witness :
    (fixRemoteForPull ⟨[⟨originName, "old".toList⟩]⟩ "new".toList).1.remotes.filter
        isOriginEntry = [⟨originName, "new".toList⟩] ∧
    (fixRemoteForPull ⟨[⟨originName, "old".toList⟩]⟩ "new".toList).2 =
      [Ev.removeRemote, Ev.addRemote "new".toList] :=
  (acquisition_remote_repoint_only ⟨[⟨originName, "old".toList⟩]⟩ "new".toList
      (by decide)).2.2 ⟨originName, "old".toList⟩ (by decide) (by decide) (by decide)

lemma pullPhase_none (env : DlEnv) (url b : Str) (s : DlState)
    (hs : s.target = none) : pullPhase env url b s = (s, []) := by
  simp [pullPhase, hs]

lemma pullPhase_fail_shape (env : DlEnv) (url b : Str) (s : DlState) (d : DirContent)
    (hs : s.target = some d)
    (hfail : d.repo = none ∨ ∃ pm, env.pullOutcome = .error pm) :
    ∃ mid, pullPhase env url b s = ({ s with target := none }, mid ++ [Ev.rmTarget]) := by
  rcases hfail with hd | ⟨pm, hp⟩
  · exact ⟨[Ev.getRemotes], by simp [pullPhase, hs, hd]⟩
  · cases hd : d.repo with
    | none => exact ⟨[Ev.getRemotes], by simp [pullPhase, hs, hd]⟩
    | some cfg =>
      refine ⟨Ev.getRemotes :: (fixRemoteForPull cfg url).2 ++ [Ev.pullAttempt b], ?_⟩
      simp [pullPhase, hs, hd, hp]

lemma afterClone_npmfail (env : DlEnv) (s : DlState) (evs : List Ev) (m : Str)
    (hn : env.npmOutcome = .error m) (c : DirContent) (hs : s.target = some c) :
    (afterClone env s evs).2.2 = .error m ∧
    Ev.cleanupRm ∈ (afterClone env s evs).2.1 := by
  simp only [afterClone, hn, dlCatch, hs]
  split
  · exact ⟨rfl, by simp⟩
  · exact ⟨rfl, by simp⟩

lemma afterClone_allok (env : DlEnv) (s : DlState) (evs : List Ev) (c : DirContent)
    (hn : env.npmOutcome = .ok ()) (hs : s.target = some c) :
    afterClone env s evs =
      ({ s with target := some (ensureTargetScript c).1 },
       evs ++ [Ev.npmInstall] ++ (ensureTargetScript c).2, .ok ()) := by
  simp [afterClone, hn, hs]

lemma dlHandler_clone_branch (env : DlEnv) (urlRaw b : Str) (s : DlState)
    (st1 : DlState) (mid : List Ev)
    (hpp : pullPhase env (convertToSshUrl urlRaw) b { s with parentExists := true } =
      (st1, mid))
    (hsome : s.target.isSome = true)
    (hst1 : st1.target = none) :
    dlHandler env urlRaw b s =
      (match env.cloneOutcome with
       | .error m => dlCatch env m st1 ((Ev.mkdirParent :: mid) ++ [Ev.cloneAttempt b])
       | .ok _ => afterClone env { st1 with target := some env.cloneContent }
           ((Ev.mkdirParent :: mid) ++ [Ev.cloneAttempt b])) := by
  simp [dlHandler, hpp, hsome, hst1]

/-- C2: on an acquisition request whose target path exists as a
directory, when the non-destructive update fails for any reason (the
directory is not a working copy, or the pull fails), the directory is
removed and a clone is then attempted — the removal event precedes the
clone event in the trace — and when clone and dependency installation
succeed the resulting directory content is exactly the freshly cloned
content (plus the helper-script fixup), independent of the prior
contents. -/
theorem acquisition_update_failure_destructive_reclone
    (env : DlEnv) (urlRaw b : Str) (s : DlState) (d : DirContent)
    (hs : s.target = some d)
    (hfail : d.repo = none ∨ ∃ pm, env.pullOutcome = .error pm) :
    (∃ pre post, (dlHandler env urlRaw b s).2.1 =
       pre ++ Ev.rmTarget :: Ev.cloneAttempt b :: post) ∧
    (env.cloneOutcome = .ok () → env.npmOutcome = .ok () →
       (dlHandler env urlRaw b s).1.target =
         some (ensureTargetScript env.cloneContent).1) := by
  obtain ⟨mid, hpp⟩ := pullPhase_fail_shape env (convertToSshUrl urlRaw) b
    { s with parentExists := true } d hs hfail
  have hsome : s.target.isSome = true := by rw [hs]; rfl
  have hred := dlHandler_clone_branch env urlRaw b s _ _ hpp hsome rfl
  cases hcl : env.cloneOutcome with
  | error m =>
    rw [hcl] at hred
    constructor
    · refine ⟨Ev.mkdirParent :: mid, [], ?_⟩
      rw [hred]
      simp [dlCatch]
    · intro hok
      exact Except.noConfusion hok
  | ok u =>
    cases u
    rw [hcl] at hred
    cases hnpm : env.npmOutcome with
    | error m =>
      constructor
      · refine ⟨Ev.mkdirParent :: mid, [Ev.npmInstall, Ev.cleanupRm], ?_⟩
        rw [hred]
        simp only [afterClone, hnpm, dlCatch]
        split
        · simp
        · simp
      · intro _ hok
        exact Except.noConfusion hok
    | ok u2 =>
      cases u2
      constructor
      · refine ⟨Ev.mkdirParent :: mid,
          Ev.npmInstall :: (ensureTargetScript env.cloneContent).2, ?_⟩
        rw [hred]
        simp [afterClone, hnpm]
      · intro _ _
        rw [hred]
        simp [afterClone, hnpm]

/-- C7: when an acquisition request fails terminally — the clone fails
(whether on a fresh path or as the fallback re-clone after a failed
update of an existing target), or dependency installation fails — the
response carries the original failure for every cleanup outcome (the
cleanup removal flag of the environment is unconstrained, so a failing
cleanup never masks the original error), and cleanup is best-effort:
after an installation failure the removal of the target was attempted,
and after a clone failure there is no target left behind. -/
theorem acquisition_cleanup_preserves_original_error
    (env : DlEnv) (urlRaw b m : Str) (s : DlState) :
    (env.cloneOutcome = .ok () → env.npmOutcome = .error m →
       (dlHandler env urlRaw b s).2.2 = .error m ∧
       ((dlHandler env urlRaw b s).1.target = none ∨
        Ev.cleanupRm ∈ (dlHandler env urlRaw b s).2.1)) ∧
    ((s.target = none ∨ ∃ d, s.target = some d ∧
        (d.repo = none ∨ ∃ pm, env.pullOutcome = .error pm)) →
      env.cloneOutcome = .error m →
       (dlHandler env urlRaw b s).2.2 = .error m ∧
       (dlHandler env urlRaw b s).1.target = none) := by
  constructor
  · intro hcl hnpm
    rcases hG : pullPhase env (convertToSshUrl urlRaw) b { s with parentExists := true }
      with ⟨st1, evs1⟩
    rcases hst1 : st1.target with _ | c
    · have hred : dlHandler env urlRaw b s =
          afterClone env { st1 with target := some env.cloneContent }
            (Ev.mkdirParent :: (evs1 ++ [Ev.cloneAttempt b])) := by
        cases hte : s.target.isSome
        · simp [dlHandler, hG, hte, hst1, hcl]
        · simp [dlHandler, hG, hte, hst1, hcl]
      rw [hred]
      have h := afterClone_npmfail env { st1 with target := some env.cloneContent }
        (Ev.mkdirParent :: (evs1 ++ [Ev.cloneAttempt b])) m hnpm env.cloneContent rfl
      exact ⟨h.1, Or.inr h.2⟩
    · cases hte : s.target.isSome with
      | false =>
        have hred : dlHandler env urlRaw b s =
            afterClone env { st1 with target := some env.cloneContent }
              (Ev.mkdirParent :: (evs1 ++ [Ev.cloneAttempt b])) := by
          simp [dlHandler, hG, hte, hcl]
        rw [hred]
        have h := afterClone_npmfail env { st1 with target := some env.cloneContent }
          (Ev.mkdirParent :: (evs1 ++ [Ev.cloneAttempt b])) m hnpm env.cloneContent rfl
        exact ⟨h.1, Or.inr h.2⟩
      | true =>
        have hred : dlHandler env urlRaw b s =
            afterClone env st1 (Ev.mkdirParent :: evs1) := by
          simp [dlHandler, hG, hte, hst1]
        rw [hred]
        have h := afterClone_npmfail env st1 (Ev.mkdirParent :: evs1) m hnpm c hst1
        exact ⟨h.1, Or.inr h.2⟩
  · intro hsc hcl
    rcases hsc with hs | ⟨d, hs, hfail⟩
    · have hpp : pullPhase env (convertToSshUrl urlRaw) b ⟨true, none⟩ =
          ((⟨true, none⟩ : DlState), []) :=
        pullPhase_none env (convertToSshUrl urlRaw) b ⟨true, none⟩ rfl
      have hred : dlHandler env urlRaw b s =
          dlCatch env m (⟨true, none⟩ : DlState) [Ev.mkdirParent, Ev.cloneAttempt b] := by
        simp [dlHandler, hs, hpp, hcl]
      rw [hred]
      simp [dlCatch]
    · obtain ⟨mid, hpp⟩ := pullPhase_fail_shape env (convertToSshUrl urlRaw) b
        { s with parentExists := true } d hs hfail
      have hsome : s.target.isSome = true := by rw [hs]; rfl
      have hred := dlHandler_clone_branch env urlRaw b s _ _ hpp hsome rfl
      rw [hcl] at hred
      rw [hred]
      simp [dlCatch]

/-- The directory content a successful clone materializes in witnesses. -/
def sampleContent : DirContent := ⟨some ⟨[]⟩, [pkgJson], []⟩

/-- A download environment where pull and clone succeed but npm install
fails and the cleanup removal itself fails. -/
def dlEnvNpmFail : DlEnv := ⟨.ok (), .ok (), sampleContent, .error "boom".toList, false⟩

/-- A download environment where everything succeeds. -/
def dlEnvAllOk : DlEnv := ⟨.ok (), .ok (), sampleContent, .ok (), true⟩

/-- A download environment where the clone fails. -/
def dlEnvCloneFail : DlEnv :=
  ⟨.ok (), .error "cloneboom".toList, sampleContent, .ok (), true⟩

/-- An existing target directory that is not a working copy. -/
def dlStExisting : DlState := ⟨false, some ⟨none, ["stale".toList], []⟩⟩

/-- A fresh target path. -/
def dlStFresh : DlState := ⟨false, none⟩

/-- Witness for C2 at a concrete existing non-repository target: the
final content is the freshly cloned content with the helper script
ensured, with no residue of the stale file. -/
theorem acquisition_reclone_witness :
    (dlHandler dlEnvAllOk "u".toList "main".toList dlStExisting).1.target =
      some (ensureTargetScript sampleContent).1 :=
  (acquisition_update_failure_destructive_reclone dlEnvAllOk "u".toList
    "main".toList dlStExisting ⟨none, ["stale".toList], []⟩ rfl
    (Or.inl rfl)).2 rfl rfl

/-- Witness for C7 at two concrete runs: npm install fails and the
cleanup removal also fails, yet the caller receives the npm error; and
the fallback re-clone of an existing target with a failed update fails,
surfacing the clone error with no target left behind. -/
theorem acquisition_cleanup_witness :
    ((dlHandler dlEnvNpmFail "u".toList "main".toList dlStFresh).2.2 =
       .error "boom".toList ∧
     ((dlHandler dlEnvNpmFail "u".toList "main".toList dlStFresh).1.target = none ∨
      Ev.cleanupRm ∈ (dlHandler dlEnvNpmFail "u".toList "main".toList dlStFresh).2.1)) ∧
    ((dlHandler dlEnvCloneFail "u".toList "main".toList dlStExisting).2.2 =
       .error "cloneboom".toList ∧
     (dlHandler dlEnvCloneFail "u".toList "main".toList dlStExisting).1.target = none) :=
  ⟨(acquisition_cleanup_preserves_original_error dlEnvNpmFail "u".toList
      "main".toList "boom".toList dlStFresh).1 rfl rfl,
   (acquisition_cleanup_preserves_original_error dlEnvCloneFail "u".toList
      "main".toList "cloneboom".toList dlStExisting).2
      (Or.inr ⟨⟨none, ["stale".toList], []⟩, rfl, Or.inl rfl⟩) rfl⟩
